import Mathlib

/-! The webpack configuration of `src/Client/webpack.config.js`.

A shallow embedding of the configuration module.  The two ambient inputs of the
module, the directory of the configuration file (`__dirname`) and the argument
vector of the process (`process.argv`), are explicit parameters.  JavaScript
strings are modelled by Lean strings, read as their list of characters.
-/

namespace WebpackConfig

/-! ## JavaScript string and array primitives used by the module -/

/-- Search loop of `String.prototype.indexOf`: the first position, counted from
`i`, at which `search` starts inside `s`, or `-1` when there is none. -/
def indexOfFrom (search : List Char) : List Char → Nat → Int
  | [], i => if search.isPrefixOf [] then (i : Int) else -1
  | c :: cs, i =>
    if search.isPrefixOf (c :: cs) then (i : Int) else indexOfFrom search cs (i + 1)

/-- The call `s.indexOf(search)`. -/
def indexOf (s search : String) : Int :=
  indexOfFrom search.data s.data 0

/-- Truthiness of the result of `Array.prototype.find` over strings: `undefined`
and the empty string are falsy, every other string is truthy. -/
def truthy : Option String → Bool
  | none => false
  | some s => !s.data.isEmpty

/-- The marker looked for in the arguments. -/
def marker : String := "webpack-dev-server"

/-- Line 42: `!process.argv.find(v => v.indexOf('webpack-dev-server') !== -1)`. -/
def isProduction (argv : List String) : Bool :=
  !truthy (argv.find? (fun v => indexOf v "webpack-dev-server" != -1))

/-- Line 43: the message written to the console. -/
def logMessage (argv : List String) : String :=
  "Bundling for " ++ (if isProduction argv then "production" else "development") ++ "..."

/-! ## The `path` module of Node.js, POSIX flavour

`path.join` is a library function outside the repository.  It is modelled from
its documented behaviour: the non-empty arguments are glued with `/` and the
result is normalised, which drops empty and `.` segments and resolves `..`
against the preceding segment. -/

/-- The pieces of a path between its `/` separators. -/
def splitSlash : List Char → List (List Char)
  | [] => [[]]
  | c :: cs =>
    if c = '/' then [] :: splitSlash cs
    else match splitSlash cs with
      | [] => [[c]]
      | seg :: more => (c :: seg) :: more

/-- One round of the segment loop of `normalizeString`; `res` holds the segments
kept so far, the most recent one first. -/
def normalizeStep (allowAboveRoot : Bool) (res : List (List Char)) (seg : List Char) :
    List (List Char) :=
  if seg = [] ∨ seg = ['.'] then res
  else if seg = ['.', '.'] then
    match res with
    | [] => if allowAboveRoot then [seg] else []
    | last :: init =>
      if last = ['.', '.'] then (if allowAboveRoot then seg :: res else res) else init
  else seg :: res

/-- A segment that `normalizeString` keeps as it stands. -/
def Plain (seg : List Char) : Prop :=
  seg ≠ [] ∧ seg ≠ ['.'] ∧ seg ≠ ['.', '.']

instance instDecidablePlain (seg : List Char) : Decidable (Plain seg) := by
  unfold Plain; infer_instance

/-- The segments kept by `normalizeString`, in path order. -/
def normalizeString (p : List Char) (allowAboveRoot : Bool) : List (List Char) :=
  ((splitSlash p).foldl (normalizeStep allowAboveRoot) []).reverse

/-- Segments glued back with `/`. -/
def joinSegments : List (List Char) → List Char
  | [] => []
  | [s] => s
  | s :: t :: r => s ++ '/' :: joinSegments (t :: r)

/-- The function `path.normalize`. -/
def path.normalize (p : List Char) : List Char :=
  if p = [] then ['.']
  else
    let isAbsolute : Bool := p.head? = some '/'
    let trailingSeparator : Bool := p.getLast? = some '/'
    let res := joinSegments (normalizeString p (!isAbsolute))
    if res = [] then
      if isAbsolute then ['/'] else if trailingSeparator then ['.', '/'] else ['.']
    else
      (if isAbsolute then '/' :: res else res) ++ (if trailingSeparator then ['/'] else [])

/-- The function `path.join`. -/
def path.join (args : List String) : String :=
  match args.filter (fun a => !a.data.isEmpty) with
  | [] => "."
  | a :: more =>
    ⟨path.normalize (more.foldl (fun joined arg => joined ++ '/' :: arg.data) a.data)⟩

/-- Lines 6-8: `resolve(filePath)` is `path.join(__dirname, filePath)`. -/
def resolve (__dirname filePath : String) : String :=
  path.join [__dirname, filePath]

/-- The non-empty segments of a path. -/
def pathSegments (p : String) : List (List Char) :=
  (splitSlash p.data).filter (fun seg => !seg.isEmpty)

/-! ## Regular expressions of the transform rules -/

/-- The fragment of JavaScript regular expressions met in the module. -/
inductive RegExp where
  | char (c : Char)
  | seq (a b : RegExp)
  | alt (a b : RegExp)
  | opt (a : RegExp)
  | eoi
  deriving DecidableEq, Repr

/-- Backtracking match of `re` at the head of `s`; `k` receives the rest of the
input.  `eoi` is `$` without the multiline flag: it holds at the end of input only. -/
def RegExp.matchFrom : RegExp → List Char → (List Char → Bool) → Bool
  | .char c, s, k =>
    match s with
    | [] => false
    | x :: xs => x == c && k xs
  | .seq a b, s, k => a.matchFrom s (fun r => b.matchFrom r k)
  | .alt a b, s, k => a.matchFrom s k || b.matchFrom s k
  | .opt a, s, k => a.matchFrom s k || k s
  | .eoi, s, k => s.isEmpty && k s

/-- The call `re.test(str)`: a match may start at any position of `str`. -/
def RegExp.test (re : RegExp) (str : String) : Bool :=
  str.data.tails.any (fun t => re.matchFrom t (fun _ => true))

/-- The pattern `/\.fs(x|proj)?$/` of line 55. -/
def fsPattern : RegExp :=
  .seq (.char '.') (.seq (.char 'f') (.seq (.char 's')
    (.seq (.opt (.alt (.char 'x')
      (.seq (.char 'p') (.seq (.char 'r') (.seq (.char 'o') (.char 'j')))))) .eoi)))

/-- The pattern `/\.css$/` of line 56. -/
def cssPattern : RegExp :=
  .seq (.char '.') (.seq (.char 'c') (.seq (.char 's') (.seq (.char 's') .eoi)))

/-! ## The configuration objects -/

/-- Options of `HtmlWebpackPlugin`. -/
structure HtmlOptions where
  filename : String
  template : String
  deriving DecidableEq, Repr

/-- One pattern of `CopyWebpackPlugin`. -/
structure CopyPattern where
  «from» : String
  deriving DecidableEq, Repr

/-- The plugin instances the module can build. -/
inductive Plugin where
  | HtmlWebpackPlugin (options : HtmlOptions)
  | CopyWebpackPlugin (patterns : List CopyPattern)
  | HotModuleReplacementPlugin
  deriving DecidableEq, Repr

/-- Options of one proxy route; a key the object literal leaves out is `none`. -/
structure ProxyOptions where
  target : String
  changeOrigin : Option Bool
  ws : Option Bool
  deriving DecidableEq, Repr

/-- Truthiness of an optional boolean flag: a missing flag counts as `false`. -/
def flag : Option Bool → Bool
  | none => false
  | some b => b

/-- The `devServer` object; `proxy` keeps its keys in insertion order. -/
structure DevServer where
  publicPath : String
  contentBase : String
  host : String
  port : Nat
  hot : Bool
  inline : Bool
  proxy : List (String × ProxyOptions)
  deriving DecidableEq, Repr

/-- The `use` field of a rule: an object naming one loader, or an array of loader names. -/
inductive RuleUse where
  | object (loader : String)
  | array (loaders : List String)
  deriving DecidableEq, Repr

/-- The loader names of a `use` field, in the order written. -/
def RuleUse.loaders : RuleUse → List String
  | .object loader => [loader]
  | .array loaders => loaders

/-- One entry of `module.rules`. -/
structure Rule where
  test : RegExp
  use : RuleUse
  deriving DecidableEq, Repr

/-- The `resolve` field of the configuration. -/
structure ResolveOptions where
  symlinks : Bool
  deriving DecidableEq, Repr

/-- The `output` field of the configuration. -/
structure Output where
  path : String
  deriving DecidableEq, Repr

/-- The `splitChunks` object. -/
structure SplitChunks where
  chunks : String
  deriving DecidableEq, Repr

/-- The `optimization` field of the configuration. -/
structure Optimization where
  splitChunks : SplitChunks
  deriving DecidableEq, Repr

/-- The `module` field of the configuration. -/
structure ModuleOptions where
  rules : List Rule
  deriving DecidableEq, Repr

/-- The exported configuration object.  `entry` lists the keys of the entry object
with their paths; `devServer` is `none` when the key is missing or undefined. -/
structure Configuration where
  entry : List (String × String)
  output : Output
  resolve : ResolveOptions
  mode : String
  plugins : List Plugin
  optimization : Optimization
  devServer : Option DevServer
  module : ModuleOptions
  deriving DecidableEq, Repr

/-- The capabilities of the build, one for each kind of plugin. -/
inductive Capability where
  | HtmlInjection
  | StaticAssetCopy
  | HotReplacement
  deriving DecidableEq, Repr

/-- The capability a plugin instance provides. -/
def Plugin.capability : Plugin → Capability
  | .HtmlWebpackPlugin _ => .HtmlInjection
  | .CopyWebpackPlugin _ => .StaticAssetCopy
  | .HotModuleReplacementPlugin => .HotReplacement

/-- Lines 12-16. -/
def htmlPlugin (__dirname : String) : Plugin :=
  .HtmlWebpackPlugin { filename := "index.html", template := resolve __dirname "./index.html" }

/-- Lines 19-22. -/
def copyPlugin (__dirname : String) : Plugin :=
  .CopyWebpackPlugin [{ «from» := resolve __dirname "./public" }]

/-- Lines 25-26. -/
def hmrPlugin : Plugin :=
  .HotModuleReplacementPlugin

/-- Lines 36-39: the object literal of the `proxy` key. -/
def proxy : List (String × ProxyOptions) :=
  [ ("/api/**", { target := "http://localhost:8085", changeOrigin := some true, ws := none }),
    ("/socket/**", { target := "http://localhost:8085", changeOrigin := none, ws := some true }) ]

/-- Lines 29-40. -/
def devServer (__dirname : String) : DevServer :=
  { publicPath := "/"
    contentBase := resolve __dirname "./public"
    host := "0.0.0.0"
    port := 8080
    hot := true
    inline := true
    proxy := proxy }

/-- Lines 54-57: the array of the `rules` key. -/
def rules : List Rule :=
  [ { test := fsPattern, use := .object "fable-loader" },
    { test := cssPattern, use := .array ["style-loader", "css-loader"] } ]

/-- Lines 45-59: the value of `module.exports`. -/
def module_exports (__dirname : String) (argv : List String) : Configuration :=
  { entry := [("app", resolve __dirname "./datascience.Client.fsproj")]
    output := { path := resolve __dirname "./../../deploy/public" }
    resolve := { symlinks := false }
    mode := if isProduction argv then "production" else "development"
    plugins :=
      if isProduction argv then [htmlPlugin __dirname, copyPlugin __dirname]
      else [htmlPlugin __dirname, hmrPlugin]
    optimization := { splitChunks := { chunks := "all" } }
    devServer := some (devServer __dirname)
    module := { rules := rules } }

/-! ## Lemmas on the primitives -/

theorem indexOfFrom_ne_neg_one (search : List Char) :
    ∀ (s : List Char) (i : Nat), indexOfFrom search s i ≠ -1 ↔ search <:+: s := by
  intro s
  induction s with
  | nil =>
    intro i
    unfold indexOfFrom
    by_cases h : search.isPrefixOf [] = true
    · have hp : search <+: [] := List.isPrefixOf_iff_prefix.mp h
      simp only [h, if_true]
      constructor
      · intro _; exact hp.isInfix
      · intro _; omega
    · simp only [h, Bool.false_eq_true, if_false]
      constructor
      · intro hc; exact absurd rfl hc
      · intro hi
        have : search = [] := List.eq_nil_of_infix_nil hi
        subst this
        exact absurd (by simp) h
  | cons c cs ih =>
    intro i
    unfold indexOfFrom
    by_cases h : search.isPrefixOf (c :: cs) = true
    · have hp : search <+: c :: cs := List.isPrefixOf_iff_prefix.mp h
      simp only [h, if_true]
      constructor
      · intro _; exact hp.isInfix
      · intro _; omega
    · simp only [h, Bool.false_eq_true, if_false]
      rw [ih (i + 1), List.infix_cons_iff]
      constructor
      · intro hi; exact Or.inr hi
      · rintro (hp | hi)
        · exact absurd (List.isPrefixOf_iff_prefix.mpr hp) h
        · exact hi

theorem indexOf_ne_neg_one (s search : String) :
    indexOf s search ≠ -1 ↔ search.data <:+: s.data :=
  indexOfFrom_ne_neg_one search.data s.data 0

theorem marker_infix_nonempty (v : String) (h : marker.data <:+: v.data) :
    v.data.isEmpty = false := by
  cases hv : v.data with
  | nil =>
    rw [hv] at h
    have := List.eq_nil_of_infix_nil h
    exact absurd this (by decide)
  | cons c cs => rfl

theorem isProduction_eq_false_iff (argv : List String) :
    isProduction argv = false ↔ ∃ v ∈ argv, marker.data <:+: v.data := by
  unfold isProduction
  cases hf : argv.find? (fun v => indexOf v "webpack-dev-server" != -1) with
  | none =>
    simp only [truthy, Bool.not_false]
    constructor
    · intro h; exact absurd h (by decide)
    · rintro ⟨v, hv, hin⟩
      have hall := List.find?_eq_none.mp hf v hv
      have : indexOf v "webpack-dev-server" ≠ -1 := (indexOf_ne_neg_one v _).mpr hin
      simp [this] at hall
  | some w =>
    have hmem : w ∈ argv := List.mem_of_find?_eq_some hf
    have hp := List.find?_some hf
    have hne : indexOf w "webpack-dev-server" ≠ -1 := by simpa using hp
    have hin : marker.data <:+: w.data := (indexOf_ne_neg_one w _).mp hne
    have hnonempty := marker_infix_nonempty w hin
    simp only [truthy, hnonempty, Bool.not_false, Bool.not_true, true_iff]
    exact ⟨w, hmem, hin⟩

/-! ## Lemmas on paths -/

theorem splitSlash_ne_nil (p : List Char) : splitSlash p ≠ [] := by
  cases p with
  | nil => simp [splitSlash]
  | cons c cs =>
    unfold splitSlash
    split
    · simp
    · split <;> simp

theorem splitSlash_append (a b : List Char) :
    splitSlash (a ++ '/' :: b) = splitSlash a ++ splitSlash b := by
  induction a with
  | nil => simp [splitSlash]
  | cons c cs ih =>
    by_cases hc : c = '/'
    · subst hc
      simp [splitSlash, ih]
    · have h1 : splitSlash (c :: cs ++ '/' :: b)
          = match splitSlash (cs ++ '/' :: b) with
            | [] => [[c]]
            | seg :: more => (c :: seg) :: more := by
        simp [splitSlash, hc]
      have h2 : splitSlash (c :: cs)
          = match splitSlash cs with
            | [] => [[c]]
            | seg :: more => (c :: seg) :: more := by
        simp [splitSlash, hc]
      rw [h1, h2, ih]
      cases hs : splitSlash cs with
      | nil => exact absurd hs (splitSlash_ne_nil cs)
      | cons seg more => simp

theorem normalizeStep_plain (b : Bool) (res : List (List Char)) (seg : List Char)
    (h : Plain seg) : normalizeStep b res seg = seg :: res := by
  obtain ⟨h1, h2, h3⟩ := h
  simp [normalizeStep, h1, h2, h3]

theorem foldl_normalizeStep_plain (b : Bool) (ps : List (List Char))
    (h : ∀ s ∈ ps, Plain s) (res : List (List Char)) :
    ps.foldl (normalizeStep b) res = ps.reverse ++ res := by
  induction ps generalizing res with
  | nil => simp
  | cons s t ih =>
    have hs : Plain s := h s (by simp)
    have ht : ∀ x ∈ t, Plain x := fun x hx => h x (by simp [hx])
    simp [List.foldl_cons, normalizeStep_plain b res s hs, ih ht]

theorem joinSegments_append (xs ps : List (List Char)) (hne : ps ≠ []) :
    ∃ pre, joinSegments (xs ++ ps) = pre ++ joinSegments ps
      ∧ (pre = [] ∨ ∃ q, pre = q ++ ['/']) := by
  induction xs with
  | nil => exact ⟨[], by simp, Or.inl rfl⟩
  | cons x xs ih =>
    obtain ⟨pre, hpre, hshape⟩ := ih
    cases hrest : xs ++ ps with
    | nil =>
      have : ps = [] := (List.append_eq_nil.mp hrest).2
      exact absurd this hne
    | cons t r =>
      rw [hrest] at hpre
      refine ⟨x ++ '/' :: pre, ?_, ?_⟩
      · rw [List.cons_append, hrest]
        simp [joinSegments, hpre]
      · rcases hshape with h0 | ⟨q, hq⟩
        · subst h0
          exact Or.inr ⟨x, rfl⟩
        · subst hq
          exact Or.inr ⟨x ++ '/' :: q, by simp⟩

theorem joinSegments_ne_nil (ps : List (List Char)) (hne : ps ≠ [])
    (h : ∀ s ∈ ps, Plain s) : joinSegments ps ≠ [] := by
  cases ps with
  | nil => exact absurd rfl hne
  | cons s t =>
    have hs : s ≠ [] := (h s (by simp)).1
    cases t with
    | nil => simpa [joinSegments] using hs
    | cons u r => simp [joinSegments, hs]

/-- A path whose last pieces are plain segments normalises to a path that ends
with those segments, as whole segments. -/
theorem normalize_of_split (p : List Char) (xs ps : List (List Char))
    (hsplit : splitSlash p = xs ++ ps) (hne : ps ≠ []) (hplain : ∀ s ∈ ps, Plain s)
    (hlast : p.getLast? ≠ some '/') :
    ∃ pre, path.normalize p = pre ++ joinSegments ps
      ∧ (pre = [] ∨ ∃ q, pre = q ++ ['/']) := by
  have hp : p ≠ [] := by
    rintro rfl
    have h1 : xs ++ ps = [[]] := by rw [← hsplit]; rfl
    cases xs with
    | nil =>
      have : ps = [[]] := by simpa using h1
      have hpl := hplain [] (by simp [this])
      exact hpl.1 rfl
    | cons x xs =>
      have : xs ++ ps = [] := by
        have := congrArg List.tail h1
        simpa using this
      exact hne (List.append_eq_nil.mp this).2
  have hnorm : ∀ b, normalizeString p b
      = (xs.foldl (normalizeStep b) []).reverse ++ ps := by
    intro b
    unfold normalizeString
    rw [hsplit, List.foldl_append, foldl_normalizeStep_plain b ps hplain]
    simp
  unfold path.normalize
  simp only [hp, if_false, hlast, decide_False, Bool.false_eq_true, List.append_nil]
  obtain ⟨pre, hpre, hshape⟩ :=
    joinSegments_append ((xs.foldl (normalizeStep (!decide (p.head? = some '/'))) []).reverse)
      ps hne
  have hres : joinSegments (normalizeString p (!decide (p.head? = some '/'))) ≠ [] := by
    rw [hnorm, hpre]
    have := joinSegments_ne_nil ps hne hplain
    simp [this]
  simp only [hres, if_false]
  rw [hnorm, hpre]
  by_cases habs : p.head? = some '/'
  · simp only [habs, decide_True, if_true]
    refine ⟨'/' :: pre, by simp, ?_⟩
    rcases hshape with h0 | ⟨q, hq⟩
    · subst h0
      exact Or.inr ⟨[], rfl⟩
    · subst hq
      exact Or.inr ⟨'/' :: q, by simp⟩
  · simp only [habs, decide_False, Bool.false_eq_true, if_false]
    exact ⟨pre, rfl, hshape⟩

theorem getLast?_append_cons (l : List Char) (c : Char) (cs : List Char) :
    (l ++ c :: cs).getLast? = (c :: cs).getLast? := by
  induction l with
  | nil => rfl
  | cons x xs ih =>
    cases h : xs ++ c :: cs with
    | nil => simp at h
    | cons y ys => rw [List.cons_append, h, List.getLast?_cons_cons, ← h, ih]

/-- The text handed to `path.normalize` by `resolve`. -/
theorem resolve_eq (d f : String) (hf : f.data ≠ []) :
    resolve d f
      = ⟨path.normalize (if d.data = [] then f.data else d.data ++ '/' :: f.data)⟩ := by
  have hfe : f.data.isEmpty = false := by
    cases h : f.data with
    | nil => exact absurd h hf
    | cons c cs => rfl
  unfold resolve path.join
  by_cases hd : d.data = []
  · simp [List.filter, hd, hfe]
  · have hde : d.data.isEmpty = false := by
      cases h : d.data with
      | nil => exact absurd h hd
      | cons c cs => rfl
    simp [List.filter, hd, hfe, hde]

/-- For a relative `filePath` whose last pieces are plain segments, the resolved
path ends with those segments. -/
theorem resolve_ends (d f : String) (xs ps : List (List Char))
    (hsplit : splitSlash f.data = xs ++ ps) (hne : ps ≠ []) (hplain : ∀ s ∈ ps, Plain s)
    (hlast : f.data.getLast? ≠ some '/') (hf : f.data ≠ []) :
    ∃ pre, (resolve d f).data = pre ++ joinSegments ps
      ∧ (pre = [] ∨ ∃ q, pre = q ++ ['/']) := by
  rw [resolve_eq d f hf]
  by_cases hd : d.data = []
  · simp only [hd, if_true]
    exact normalize_of_split f.data xs ps hsplit hne hplain hlast
  · simp only [hd, if_false]
    refine normalize_of_split (d.data ++ '/' :: f.data) (splitSlash d.data ++ xs) ps ?_ hne
      hplain ?_
    · rw [splitSlash_append, hsplit, List.append_assoc]
    · have : (d.data ++ '/' :: f.data).getLast? = f.data.getLast? := by
        cases hfd : f.data with
        | nil => exact absurd hfd hf
        | cons c cs =>
          rw [show d.data ++ '/' :: c :: cs = (d.data ++ ['/']) ++ c :: cs by simp]
          exact getLast?_append_cons _ c cs
      rw [this]
      exact hlast

/-! ## Lemmas on regular expressions -/

theorem matchFrom_char (c : Char) (s : List Char) (k : List Char → Bool) :
    (RegExp.char c).matchFrom s k = true ↔ ∃ r, s = c :: r ∧ k r = true := by
  cases s with
  | nil => simp [RegExp.matchFrom]
  | cons x xs =>
    simp only [RegExp.matchFrom, Bool.and_eq_true, beq_iff_eq, List.cons.injEq]
    constructor
    · rintro ⟨rfl, hk⟩
      exact ⟨xs, ⟨rfl, rfl⟩, hk⟩
    · rintro ⟨r, ⟨rfl, rfl⟩, hk⟩
      exact ⟨rfl, hk⟩

theorem matchFrom_seq (a b : RegExp) (s : List Char) (k : List Char → Bool) :
    (RegExp.seq a b).matchFrom s k = a.matchFrom s (fun r => b.matchFrom r k) := rfl

theorem matchFrom_alt (a b : RegExp) (s : List Char) (k : List Char → Bool) :
    (RegExp.alt a b).matchFrom s k = (a.matchFrom s k || b.matchFrom s k) := rfl

theorem matchFrom_opt (a : RegExp) (s : List Char) (k : List Char → Bool) :
    (RegExp.opt a).matchFrom s k = (a.matchFrom s k || k s) := rfl

theorem matchFrom_eoi (s : List Char) (k : List Char → Bool) :
    RegExp.eoi.matchFrom s k = (s.isEmpty && k s) := rfl

theorem test_iff (re : RegExp) (str : String) :
    re.test str = true ↔ ∃ t, t <:+ str.data ∧ re.matchFrom t (fun _ => true) = true := by
  unfold RegExp.test
  simp only [List.any_eq_true, List.mem_tails]

theorem fsPattern_matchFrom (t : List Char) :
    fsPattern.matchFrom t (fun _ => true) = true
      ↔ t = ".fs".data ∨ t = ".fsx".data ∨ t = ".fsproj".data := by
  show _ ↔ t = ['.', 'f', 's'] ∨ t = ['.', 'f', 's', 'x']
    ∨ t = ['.', 'f', 's', 'p', 'r', 'o', 'j']
  simp only [fsPattern, matchFrom_seq, matchFrom_alt, matchFrom_opt, matchFrom_eoi,
    matchFrom_char, Bool.or_eq_true, Bool.and_eq_true, List.isEmpty_iff]
  constructor
  · rintro ⟨r1, rfl, r2, rfl, r3, rfl, h⟩
    rcases h with (⟨r4, rfl, rfl, _⟩ | ⟨r4, rfl, r5, rfl, r6, rfl, r7, rfl, rfl, _⟩) | ⟨rfl, _⟩
    · exact Or.inr (Or.inl rfl)
    · exact Or.inr (Or.inr rfl)
    · exact Or.inl rfl
  · rintro (rfl | rfl | rfl)
    · exact ⟨_, rfl, _, rfl, _, rfl, Or.inr ⟨rfl, trivial⟩⟩
    · exact ⟨_, rfl, _, rfl, _, rfl, Or.inl (Or.inl ⟨_, rfl, rfl, trivial⟩)⟩
    · exact ⟨_, rfl, _, rfl, _, rfl,
        Or.inl (Or.inr ⟨_, rfl, _, rfl, _, rfl, _, rfl, rfl, trivial⟩)⟩

theorem cssPattern_matchFrom (t : List Char) :
    cssPattern.matchFrom t (fun _ => true) = true ↔ t = ".css".data := by
  show _ ↔ t = ['.', 'c', 's', 's']
  simp only [cssPattern, matchFrom_seq, matchFrom_eoi, matchFrom_char, Bool.and_eq_true,
    List.isEmpty_iff]
  constructor
  · rintro ⟨r1, rfl, r2, rfl, r3, rfl, r4, rfl, rfl, _⟩
    rfl
  · rintro rfl
    exact ⟨_, rfl, _, rfl, _, rfl, _, rfl, rfl, trivial⟩

theorem fsPattern_test_iff (name : String) :
    fsPattern.test name = true
      ↔ ".fs".data <:+ name.data ∨ ".fsx".data <:+ name.data ∨ ".fsproj".data <:+ name.data := by
  rw [test_iff]
  constructor
  · rintro ⟨t, ht, hm⟩
    rcases (fsPattern_matchFrom t).mp hm with rfl | rfl | rfl
    · exact Or.inl ht
    · exact Or.inr (Or.inl ht)
    · exact Or.inr (Or.inr ht)
  · rintro (h | h | h)
    · exact ⟨_, h, (fsPattern_matchFrom _).mpr (Or.inl rfl)⟩
    · exact ⟨_, h, (fsPattern_matchFrom _).mpr (Or.inr (Or.inl rfl))⟩
    · exact ⟨_, h, (fsPattern_matchFrom _).mpr (Or.inr (Or.inr rfl))⟩

theorem cssPattern_test_iff (name : String) :
    cssPattern.test name = true ↔ ".css".data <:+ name.data := by
  rw [test_iff]
  constructor
  · rintro ⟨t, ht, hm⟩
    rw [(cssPattern_matchFrom t).mp hm] at ht
    exact ht
  · intro h
    exact ⟨_, h, (cssPattern_matchFrom _).mpr rfl⟩

/-- Two suffixes of one list of which neither is a suffix of the other cannot both occur. -/
theorem suffix_clash (a b s : List Char) (ha : a <:+ s) (hb : b <:+ s)
    (hab : ¬ a <:+ b) (hba : ¬ b <:+ a) : False := by
  rcases List.suffix_or_suffix_of_suffix ha hb with h | h
  · exact hab h
  · exact hba h

theorem not_both_patterns (name : String) :
    ¬ (fsPattern.test name = true ∧ cssPattern.test name = true) := by
  rintro ⟨hfs, hcss⟩
  have hc := (cssPattern_test_iff name).mp hcss
  rcases (fsPattern_test_iff name).mp hfs with h | h | h
  · exact suffix_clash _ _ _ h hc (by decide) (by decide)
  · exact suffix_clash _ _ _ h hc (by decide) (by decide)
  · exact suffix_clash _ _ _ h hc (by decide) (by decide)

theorem pathSegments_of_ends (out : String) (pre : List Char) (a b : List Char)
    (ha : a ≠ []) (hb : b ≠ []) (hsa : splitSlash a = [a]) (hsb : splitSlash b = [b])
    (hout : out.data = pre ++ (a ++ '/' :: b)) (hpre : pre = [] ∨ ∃ q, pre = q ++ ['/']) :
    [a, b] <:+ pathSegments out := by
  have hae : a.isEmpty = false := by
    cases a with
    | nil => exact absurd rfl ha
    | cons _ _ => rfl
  have hbe : b.isEmpty = false := by
    cases b with
    | nil => exact absurd rfl hb
    | cons _ _ => rfl
  unfold pathSegments
  rw [hout]
  rcases hpre with h0 | ⟨q, hq⟩
  · subst h0
    rw [List.nil_append, splitSlash_append, hsa, hsb]
    simp [List.filter, hae, hbe]
  · subst hq
    rw [show q ++ ['/'] ++ (a ++ '/' :: b) = q ++ '/' :: (a ++ '/' :: b) by simp,
      splitSlash_append, splitSlash_append, hsa, hsb, List.filter_append]
    refine ⟨List.filter (fun seg => !seg.isEmpty) (splitSlash q), ?_⟩
    simp [List.filter, hae, hbe]

/-- The output path ends with the whole segments `deploy/public`. -/
theorem output_path_ends (d : String) :
    ∃ pre, (resolve d "./../../deploy/public").data = pre ++ "deploy/public".data
      ∧ (pre = [] ∨ ∃ q, pre = q ++ ['/']) :=
  resolve_ends d "./../../deploy/public"
    [".".data, "..".data, "..".data] ["deploy".data, "public".data]
    (by decide) (by decide) (by decide) (by decide) (by decide)

theorem output_path_segments (d : String) :
    ["deploy".data, "public".data] <:+ pathSegments (resolve d "./../../deploy/public") := by
  obtain ⟨pre, hout, hpre⟩ := output_path_ends d
  exact pathSegments_of_ends _ pre "deploy".data "public".data (by decide) (by decide)
    (by decide) (by decide) hout hpre

/-- The entry path ends with the file name of the project. -/
theorem entry_path_ends (d : String) :
    "datascience.Client.fsproj".data <:+ (resolve d "./datascience.Client.fsproj").data := by
  obtain ⟨pre, hout, _⟩ := resolve_ends d "./datascience.Client.fsproj"
    [".".data] ["datascience.Client.fsproj".data]
    (by decide) (by decide) (by decide) (by decide) (by decide)
  exact ⟨pre, hout.symm⟩

theorem entry_path_matches (d : String) :
    fsPattern.test (resolve d "./datascience.Client.fsproj") = true := by
  rw [fsPattern_test_iff]
  refine Or.inr (Or.inr ?_)
  exact List.IsSuffix.trans ⟨"datascience.Client".data, rfl⟩ (entry_path_ends d)

theorem isProduction_eq_true_iff (argv : List String) :
    isProduction argv = true ↔ ¬ ∃ v ∈ argv, marker.data <:+: v.data := by
  rw [← isProduction_eq_false_iff]
  cases isProduction argv <;> simp

/-! ## Mode detection -/

/-- C1: mode detection yields Development (`isProduction` false, mode field
`development`) exactly when some argument contains the marker `webpack-dev-server`
as a substring, and Production otherwise; the empty argument list yields Production. -/
theorem C1_mode_detection (__dirname : String) (argv : List String) :
    (isProduction argv = false ↔ ∃ v ∈ argv, marker.data <:+: v.data)
    ∧ (isProduction argv = true ↔ ¬ ∃ v ∈ argv, marker.data <:+: v.data)
    ∧ ((module_exports __dirname argv).mode = "development"
        ↔ ∃ v ∈ argv, marker.data <:+: v.data)
    ∧ ((module_exports __dirname argv).mode = "production"
        ↔ ¬ ∃ v ∈ argv, marker.data <:+: v.data)
    ∧ isProduction [] = true
    ∧ (module_exports __dirname []).mode = "production" := by
  refine ⟨isProduction_eq_false_iff argv, isProduction_eq_true_iff argv, ?_, ?_, rfl, rfl⟩
  · rw [← isProduction_eq_false_iff]
    cases h : isProduction argv
    · simp [module_exports, h]
    · simp only [module_exports, h, if_true]
      constructor
      · intro hc; exact absurd hc (by decide)
      · intro hc; exact absurd hc (by decide)
  · rw [← isProduction_eq_true_iff]
    cases h : isProduction argv
    · simp only [module_exports, h, Bool.false_eq_true, if_false]
      constructor
      · intro hc; exact absurd hc (by decide)
      · intro hc; exact absurd hc (by decide)
    · simp [module_exports, h]

/-! ## Presence of the dev-server configuration -/

/-- C2, as stated, fails: for a production build the `devServer` key is present
although the mode is not `development`. -/
theorem C2_counterexample :
    ¬ ((module_exports "/app/src/Client" ["node", "webpack", "-p"]).devServer.isSome = true
        ↔ (module_exports "/app/src/Client" ["node", "webpack", "-p"]).mode = "development") := by
  decide

/-- C2, amended: for every argument list the exported configuration carries the
dev-server configuration, and with it the proxy route table, whatever the mode. -/
theorem C2_devServer_always_present (__dirname : String) (argv : List String) :
    (module_exports __dirname argv).devServer = some (devServer __dirname)
    ∧ (module_exports __dirname argv).devServer.isSome = true
    ∧ (module_exports __dirname argv).devServer.map (fun c => c.proxy) = some proxy := by
  refine ⟨rfl, rfl, rfl⟩

/-! ## The two scenarios -/

/-- C3, as stated, fails: `devserver-start` does not contain the marker, so the
arguments `["node", "devserver-start"]` do not select the development mode. -/
theorem C3_counterexample :
    ¬ ((module_exports "/app/src/Client" ["node", "devserver-start"]).mode = "development"
        ∧ (module_exports "/app/src/Client" ["node", "devserver-start"]).plugins.map
            Plugin.capability = [.HtmlInjection, .HotReplacement]
        ∧ (module_exports "/app/src/Client" ["node", "devserver-start"]).devServer.map
            (fun c => c.port) = some 8080) := by
  decide

/-- C3, amended: for `["node", "devserver-start"]` the mode is Production, the
plugins are the HTML and the copy plugin and the dev-server port is 8080; the
Development outcome, with the HTML and the hot-replacement plugin and port 8080, is
the one of arguments that contain the marker, such as `["node", "webpack-dev-server"]`. -/
theorem C3_scenario_amended (__dirname : String) :
    indexOf "devserver-start" "webpack-dev-server" = -1
    ∧ isProduction ["node", "devserver-start"] = true
    ∧ (module_exports __dirname ["node", "devserver-start"]).mode = "production"
    ∧ (module_exports __dirname ["node", "devserver-start"]).plugins
        = [htmlPlugin __dirname, copyPlugin __dirname]
    ∧ (module_exports __dirname ["node", "devserver-start"]).plugins.map Plugin.capability
        = [.HtmlInjection, .StaticAssetCopy]
    ∧ (module_exports __dirname ["node", "devserver-start"]).devServer.map (fun c => c.port)
        = some 8080
    ∧ isProduction ["node", "webpack-dev-server"] = false
    ∧ (module_exports __dirname ["node", "webpack-dev-server"]).mode = "development"
    ∧ (module_exports __dirname ["node", "webpack-dev-server"]).plugins
        = [htmlPlugin __dirname, hmrPlugin]
    ∧ (module_exports __dirname ["node", "webpack-dev-server"]).plugins.map Plugin.capability
        = [.HtmlInjection, .HotReplacement]
    ∧ (module_exports __dirname ["node", "webpack-dev-server"]).devServer.map (fun c => c.port)
        = some 8080 := by
  have h1 : isProduction ["node", "devserver-start"] = true := by decide
  have h2 : isProduction ["node", "webpack-dev-server"] = false := by decide
  refine ⟨by decide, h1, ?_, ?_, ?_, rfl, h2, ?_, ?_, ?_, rfl⟩
  · simp [module_exports, h1]
  · simp [module_exports, h1]
  · simp [module_exports, h1, htmlPlugin, copyPlugin, Plugin.capability]
  · simp [module_exports, h2]
  · simp [module_exports, h2]
  · simp [module_exports, h2, htmlPlugin, hmrPlugin, Plugin.capability]

/-- C4, as stated, fails: for `["node", "build"]` the dev-server configuration is
not absent. -/
theorem C4_counterexample :
    ¬ ((module_exports "/app/src/Client" ["node", "build"]).mode = "production"
        ∧ (module_exports "/app/src/Client" ["node", "build"]).plugins.map Plugin.capability
            = [.HtmlInjection, .StaticAssetCopy]
        ∧ (module_exports "/app/src/Client" ["node", "build"]).devServer = none) := by
  decide

/-- C4, amended: for `["node", "build"]` the mode is Production, the plugins are the
HTML and the copy plugin, the dev-server configuration is present, and the output path
ends with the whole segments `deploy/public`. -/
theorem C4_scenario_amended (__dirname : String) :
    isProduction ["node", "build"] = true
    ∧ (module_exports __dirname ["node", "build"]).mode = "production"
    ∧ (module_exports __dirname ["node", "build"]).plugins
        = [htmlPlugin __dirname, copyPlugin __dirname]
    ∧ (module_exports __dirname ["node", "build"]).plugins.map Plugin.capability
        = [.HtmlInjection, .StaticAssetCopy]
    ∧ (module_exports __dirname ["node", "build"]).devServer = some (devServer __dirname)
    ∧ (module_exports __dirname ["node", "build"]).output.path
        = resolve __dirname "./../../deploy/public"
    ∧ (∃ pre, (module_exports __dirname ["node", "build"]).output.path.data
          = pre ++ "deploy/public".data ∧ (pre = [] ∨ ∃ q, pre = q ++ ['/']))
    ∧ ["deploy".data, "public".data]
        <:+ pathSegments (module_exports __dirname ["node", "build"]).output.path := by
  have h1 : isProduction ["node", "build"] = true := by decide
  refine ⟨h1, ?_, ?_, ?_, rfl, rfl, output_path_ends __dirname,
    output_path_segments __dirname⟩
  · simp [module_exports, h1]
  · simp [module_exports, h1]
  · simp [module_exports, h1, htmlPlugin, copyPlugin, Plugin.capability]

/-! ## Composition of the plugins -/

/-- C5: when the arguments are classified as Production, the mode field is
`production` and the plugin list is exactly the HTML plugin followed by the copy
plugin; the hot-replacement plugin does not occur in it. -/
theorem C5_production_plugins (__dirname : String) (argv : List String)
    (h : isProduction argv = true) :
    (module_exports __dirname argv).mode = "production"
    ∧ (module_exports __dirname argv).plugins = [htmlPlugin __dirname, copyPlugin __dirname]
    ∧ (module_exports __dirname argv).plugins.map Plugin.capability
        = [.HtmlInjection, .StaticAssetCopy]
    ∧ (module_exports __dirname argv).plugins.head? = some (htmlPlugin __dirname)
    ∧ hmrPlugin ∉ (module_exports __dirname argv).plugins
    ∧ Capability.HotReplacement ∉ (module_exports __dirname argv).plugins.map Plugin.capability := by
  simp [module_exports, h, htmlPlugin, copyPlugin, hmrPlugin, Plugin.capability]

theorem C5_production_plugins_witness :
    isProduction ["node", "webpack", "--mode", "production"] = true
    ∧ (module_exports "/srv/app/src/Client" ["node", "webpack", "--mode", "production"]).mode
        = "production"
    ∧ (module_exports "/srv/app/src/Client" ["node", "webpack", "--mode", "production"]).plugins
        = [htmlPlugin "/srv/app/src/Client", copyPlugin "/srv/app/src/Client"] :=
  ⟨by decide,
    (C5_production_plugins "/srv/app/src/Client" ["node", "webpack", "--mode", "production"]
      (by decide)).1,
    (C5_production_plugins "/srv/app/src/Client" ["node", "webpack", "--mode", "production"]
      (by decide)).2.1⟩

/-- C6: when the arguments are classified as Development, the mode field is
`development` and the plugin list is exactly the HTML plugin followed by the
hot-replacement plugin; the copy plugin does not occur in it. -/
theorem C6_development_plugins (__dirname : String) (argv : List String)
    (h : isProduction argv = false) :
    (module_exports __dirname argv).mode = "development"
    ∧ (module_exports __dirname argv).plugins = [htmlPlugin __dirname, hmrPlugin]
    ∧ (module_exports __dirname argv).plugins.map Plugin.capability
        = [.HtmlInjection, .HotReplacement]
    ∧ htmlPlugin __dirname ∈ (module_exports __dirname argv).plugins
    ∧ hmrPlugin ∈ (module_exports __dirname argv).plugins
    ∧ copyPlugin __dirname ∉ (module_exports __dirname argv).plugins
    ∧ Capability.StaticAssetCopy ∉ (module_exports __dirname argv).plugins.map Plugin.capability := by
  simp [module_exports, h, htmlPlugin, copyPlugin, hmrPlugin, Plugin.capability]

theorem C6_development_plugins_witness :
    isProduction ["node", "/srv/app/node_modules/.bin/webpack-dev-server", "--hot"] = false
    ∧ (module_exports "/srv/app/src/Client"
        ["node", "/srv/app/node_modules/.bin/webpack-dev-server", "--hot"]).mode
        = "development"
    ∧ (module_exports "/srv/app/src/Client"
        ["node", "/srv/app/node_modules/.bin/webpack-dev-server", "--hot"]).plugins
        = [htmlPlugin "/srv/app/src/Client", hmrPlugin] :=
  ⟨by decide,
    (C6_development_plugins "/srv/app/src/Client"
      ["node", "/srv/app/node_modules/.bin/webpack-dev-server", "--hot"] (by decide)).1,
    (C6_development_plugins "/srv/app/src/Client"
      ["node", "/srv/app/node_modules/.bin/webpack-dev-server", "--hot"] (by decide)).2.1⟩

/-! ## The dev-server configuration -/

/-- C7: the proxy table has exactly two routes with distinct patterns: first
`/api/**` to `http://localhost:8085` with the origin rewritten and no websocket flag,
then `/socket/**` to the same target with the websocket flag and no origin rewrite. -/
theorem C7_proxy_routes (__dirname : String) (argv : List String) :
    (module_exports __dirname argv).devServer.map (fun c => c.proxy) = some proxy
    ∧ proxy.length = 2
    ∧ proxy.map (fun r => r.1) = ["/api/**", "/socket/**"]
    ∧ (proxy.map (fun r => r.1)).Nodup
    ∧ proxy.map (fun r => r.2.target) = ["http://localhost:8085", "http://localhost:8085"]
    ∧ proxy.map (fun r => r.2.ws) = [none, some true]
    ∧ proxy.map (fun r => flag r.2.ws) = [false, true]
    ∧ proxy.map (fun r => r.2.changeOrigin) = [some true, none]
    ∧ proxy.map (fun r => flag r.2.changeOrigin) = [true, false] := by
  refine ⟨rfl, rfl, rfl, by decide, rfl, rfl, rfl, rfl, rfl⟩

/-- C8: the dev-server configuration binds `0.0.0.0:8080`, has public path `/`, hot
reload and the inline client switched on, the proxy table as its proxy, and serves
static content from the `public` directory, the directory the copy plugin copies from. -/
theorem C8_devServer_fields (__dirname : String) :
    (devServer __dirname).host = "0.0.0.0"
    ∧ (devServer __dirname).port = 8080
    ∧ (devServer __dirname).publicPath = "/"
    ∧ (devServer __dirname).hot = true
    ∧ (devServer __dirname).inline = true
    ∧ (devServer __dirname).proxy = proxy
    ∧ (devServer __dirname).contentBase = resolve __dirname "./public"
    ∧ copyPlugin __dirname
        = Plugin.CopyWebpackPlugin [{ «from» := (devServer __dirname).contentBase }]
    ∧ "public".data <:+ (devServer __dirname).contentBase.data := by
  refine ⟨rfl, rfl, rfl, rfl, rfl, rfl, rfl, rfl, ?_⟩
  obtain ⟨pre, hout, _⟩ := resolve_ends __dirname "./public" [".".data] ["public".data]
    (by decide) (by decide) (by decide) (by decide) (by decide)
  exact ⟨pre, hout.symm⟩

/-! ## Fields that do not depend on the mode -/

/-- C9: two configurations built from any two argument lists agree on the entry, the
output path, the resolution policy and the transform rules; every configuration has
one entry point and has the resolution of symbolic links switched off. -/
theorem C9_mode_independent (__dirname : String) (argv₁ argv₂ : List String) :
    (module_exports __dirname argv₁).entry = (module_exports __dirname argv₂).entry
    ∧ (module_exports __dirname argv₁).output = (module_exports __dirname argv₂).output
    ∧ (module_exports __dirname argv₁).resolve = (module_exports __dirname argv₂).resolve
    ∧ (module_exports __dirname argv₁).module = (module_exports __dirname argv₂).module
    ∧ (module_exports __dirname argv₁).entry.length = 1
    ∧ (module_exports __dirname argv₁).entry
        = [("app", resolve __dirname "./datascience.Client.fsproj")]
    ∧ (module_exports __dirname argv₁).output.path = resolve __dirname "./../../deploy/public"
    ∧ (module_exports __dirname argv₁).resolve.symlinks = false := by
  refine ⟨rfl, rfl, rfl, rfl, rfl, rfl, rfl, rfl⟩

/-! ## The transform rules -/

/-- C10: there are exactly two rules, the source rule with `fable-loader` and then
the stylesheet rule with `style-loader` before `css-loader`.  The source rule matches
a name exactly when it ends in `.fs`, `.fsx` or `.fsproj`, the stylesheet rule exactly
when it ends in `.css`, no name matches both, and the entry point matches the source
rule, as a bare file name and as the resolved path. -/
theorem C10_transform_rules (__dirname : String) (argv : List String) (name : String) :
    (module_exports __dirname argv).module.rules
        = [{ test := fsPattern, use := .object "fable-loader" },
           { test := cssPattern, use := .array ["style-loader", "css-loader"] }]
    ∧ (module_exports __dirname argv).module.rules.map (fun r => r.use.loaders)
        = [["fable-loader"], ["style-loader", "css-loader"]]
    ∧ (fsPattern.test name = true
        ↔ ".fs".data <:+ name.data ∨ ".fsx".data <:+ name.data ∨ ".fsproj".data <:+ name.data)
    ∧ (cssPattern.test name = true ↔ ".css".data <:+ name.data)
    ∧ ¬ (fsPattern.test name = true ∧ cssPattern.test name = true)
    ∧ fsPattern.test "datascience.Client.fsproj" = true
    ∧ (∀ e ∈ (module_exports __dirname argv).entry, fsPattern.test e.2 = true) := by
  refine ⟨rfl, rfl, fsPattern_test_iff name, cssPattern_test_iff name,
    not_both_patterns name, by decide, ?_⟩
  intro e he
  have : e = ("app", resolve __dirname "./datascience.Client.fsproj") := by
    simpa [module_exports] using he
  subst this
  exact entry_path_matches __dirname

end WebpackConfig
